import Mathlib

/-!
Shallow embedding of the disk-backed bucket sort in
`src/include/chia/DiskSort.hpp` (template `DiskSort<T, Key>`).

Modelling conventions:

* The record type `T` is a template parameter of the C++ class; here it is a
  section variable `T` together with the out-of-scope collaborator interfaces
  the spec fixes for it: a pure key extractor `key : T → Nat` (the functor
  `Key{}`), a serialization `encode : T → List Nat` (the record's
  `write`, one `Nat` per byte) whose output length is the record's fixed
  `disk_size` (`diskSize`), and the record's `read` which inverts `write`.
  Because `read` inverts `write`, a bucket file (a raw concatenation of
  fixed-size serialized records) is modelled as the `List T` of the records
  written to it, its byte content being recoverable as `fileRecs.flatMap
  encode`; the write-buffer is modelled the same way, with the C++ fill
  offset kept as an explicit `offset` field advanced by the number of bytes
  `entry.write` reports, exactly as `bucket.offset += entry.write(...)` does.
* `sizeof(bucket.buffer)` is declared in `chia/DiskSort.h`, which is not part
  of the sources; the buffer capacity is therefore a parameter `cap`.
* Machine integers (`size_t`, the key's unsigned type) are modelled as `Nat`;
  the C++ expressions `key >> (key_size - log_num_buckets)`, `key / M` and
  `1 << log_num_buckets` are `Nat.shiftRight`, `Nat.div` and
  `Nat.shiftLeft`, which agree with the C++ semantics whenever the
  configuration is legal (`log_num_buckets ≤ key_size`, `0 < M`); theorems
  carry those side conditions.
* Fatal C++ exceptions and undefined behaviour (`fclose(NULL)`) are an
  `Except Err` result; disk I/O itself is assumed to succeed, so `fwrite`
  and `fflush` never fail in the model.
* The `Thread` / `ThreadPool` pipeline primitives are out-of-scope
  collaborators; per their interface contract ("submit work item, worker
  computes result, forward result to next stage preserving submission
  order") a pool is modelled as an in-order fold: `read` submits bucket
  indices `0 .. num_buckets - 1` in ascending order, and `sort_bucket`
  submits a bucket's sub-blocks in ascending position order, so results
  reach the downstream consumer in exactly that order regardless of
  `num_threads` (which the model therefore only stores).
-/

namespace ChiaDiskSort

/-- Failure modes of the engine: fatal I/O errors (`fopen` failure, short
`fwrite`, short `fread`), the two logical-state errors thrown by `add`
("read only" and "index out of range"), and passing a null `FILE*` to
`fclose` (undefined behaviour in C, reachable by calling `clear` twice). -/
inductive Err where
  | fopenFailed
  | fwriteFailed
  | shortRead
  | readOnly
  | indexOutOfRange
  | closedHandle
  deriving DecidableEq

/-- Mode a bucket's `FILE*` handle is open in: `"wb"` during ingestion,
`"rb"` after `read_bucket` reopens the file. -/
inductive Mode where
  | write
  | read
  deriving DecidableEq

/-- One `bucket_t` of `DiskSort`: backing file name, the `FILE*` handle
(`none` models a null pointer), whether the temp file currently exists on
disk, the records already written to the file (`fileRecs`; the file's bytes
are `fileRecs.flatMap encode`), the records sitting in the write buffer
(`buffer`; its bytes are `buffer.flatMap encode`), the buffer fill offset in
bytes (`offset`), and the running record count (`num_entries`). -/
structure Bucket (T : Type) where
  fileName : String
  handle : Option Mode
  fileExists : Bool
  fileRecs : List T
  buffer : List T
  offset : Nat
  numEntries : Nat
  deriving DecidableEq

/-- State of a `DiskSort<T, Key>` object: the constructor arguments
`key_size`, `log_num_buckets`, `num_threads`, the `is_finished` flag and the
vector of `1 << log_num_buckets` buckets. -/
structure DiskSort (T : Type) where
  keySize : Nat
  logNumBuckets : Nat
  numThreads : Nat
  isFinished : Bool
  buckets : List (Bucket T)
  deriving DecidableEq

/-- Bucket as created by the constructor: file named
`<prefix>.sort_bucket_<i>.tmp` opened with `fopen(..., "wb")` (which creates
or truncates the file), empty buffer, zero offset, zero record count. -/
def initBucket (T : Type) (pre : String) (i : Nat) : Bucket T :=
  { fileName := pre ++ (".sort_bucket_") ++ toString i ++ (".tmp")
    handle := some Mode.write
    fileExists := true
    fileRecs := []
    buffer := []
    offset := 0
    numEntries := 0 }

/-- Constructor `DiskSort::DiskSort(key_size, log_num_buckets, num_threads,
file_prefix)`: opens `1 << log_num_buckets` bucket files for writing. -/
def DiskSort.init (T : Type) (keySize logNumBuckets numThreads : Nat)
    (pre : String) : DiskSort T :=
  { keySize := keySize
    logNumBuckets := logNumBuckets
    numThreads := numThreads
    isFinished := false
    buckets := (List.range (1 <<< logNumBuckets)).map (initBucket T pre) }

/-- Translation of `bucket_t::flush()`: `fwrite` the first `offset` bytes of
the buffer to the file (the model's disk never fails) and reset the fill
offset to zero. At the record level this moves the buffered records to the
end of the file. -/
def Bucket.flush {T : Type} (b : Bucket T) : Bucket T :=
  { b with fileRecs := b.fileRecs ++ b.buffer, buffer := [], offset := 0 }

section Engine

variable {T : Type} (key : T → Nat) (encode : T → List Nat) (diskSize cap : Nat)

/-- Conditional flush performed by `add` before serializing a record:
`if(bucket.offset + T::disk_size > sizeof(bucket.buffer)) bucket.flush();`. -/
def flushCheck (b : Bucket T) : Bucket T :=
  if b.offset + diskSize > cap then b.flush else b

/-- Per-bucket effect of a successful `add(entry)`: conditional flush, then
`bucket.offset += entry.write(bucket.buffer + bucket.offset)` followed by
`bucket.num_entries++`. -/
def addBucketStep (b : Bucket T) (t : T) : Bucket T :=
  let b1 := flushCheck diskSize cap b
  { b1 with
      buffer := b1.buffer ++ [t]
      offset := b1.offset + (encode t).length
      numEntries := b1.numEntries + 1 }

/-- Translation of `DiskSort::add(entry)`: reject when finalized ("read
only"), compute `index = Key{}(entry) >> (key_size - log_num_buckets)`,
reject when `index >= buckets.size()` ("index out of range"), otherwise
update the target bucket. A thrown exception is an `Except.error`, in which
case no state is produced. -/
def DiskSort.add (s : DiskSort T) (t : T) : Except Err (DiskSort T) :=
  if s.isFinished then .error .readOnly
  else if h : key t >>> (s.keySize - s.logNumBuckets) < s.buckets.length then
    .ok { s with
            buckets := s.buckets.set (key t >>> (s.keySize - s.logNumBuckets))
              (addBucketStep encode diskSize cap
                (s.buckets[key t >>> (s.keySize - s.logNumBuckets)]) t) }
  else .error .indexOutOfRange

/-- Sequence of `add` calls, stopping at the first thrown error. -/
def DiskSort.ingest (s : DiskSort T) : List T → Except Err (DiskSort T)
  | [] => .ok s
  | t :: rest =>
    match s.add key encode diskSize cap t with
    | .ok s1 => s1.ingest rest
    | .error e => .error e

/-- Translation of `DiskSort::finish()`: flush every bucket's residual
buffer, `fflush` each file (a no-op in the model), and mark the engine
read-only. -/
def DiskSort.finish {T : Type} (s : DiskSort T) : DiskSort T :=
  { s with buckets := s.buckets.map Bucket.flush, isFinished := true }

/-- Byte content of a bucket's file: the raw concatenation of the serialized
records, with no header, footer or delimiter. -/
def Bucket.fileBytes (b : Bucket T) : List Nat :=
  b.fileRecs.flatMap encode

/-- Ascending list of the distinct coarse partition values `key(entry) / M`
occurring among `recs`: the key set of the `std::map` that `read_bucket`
builds from its `std::unordered_map` (`std::map` iterates its keys in
ascending order). -/
def partsOf (M : Nat) (recs : List T) : List Nat :=
  List.insertionSort (· ≤ ·) ((recs.map fun t => key t / M).dedup)

/-- Grouping performed by `DiskSort::read_bucket`: the bucket file's records
are read in order and appended to `table[key / M]`, and the groups are then
emitted in ascending order of the partition value. Each group keeps the
records of its partition in file order. -/
def readBucketGroups (M : Nat) (recs : List T) : List (List T) :=
  (partsOf key M recs).map fun p => recs.filter fun t => key t / M == p

/-- Stateful part of `DiskSort::read_bucket`: close any existing handle,
reopen the bucket file with `fopen(..., "rb")` (fails if the file does not
exist), then `fread` the bucket's `num_entries` records in chunks (a short
read — fewer records on disk than `num_entries` — is fatal) and group
them. -/
def Bucket.readOut (M : Nat) (b : Bucket T) : Except Err (Bucket T × List (List T)) :=
  if b.fileExists then
    if b.numEntries ≤ b.fileRecs.length then
      .ok ({ b with handle := some Mode.read },
           readBucketGroups key M (b.fileRecs.take b.numEntries))
    else .error .shortRead
  else .error .fopenFailed

/-- Translation of `DiskSort::sort_block`: `std::sort` the sub-block
ascending by key. The C++ comparator is the strict `Key{}(lhs) < Key{}(rhs)`
and `std::sort` is not stable, so equal-key records may emerge in either
relative order; the model picks the stable outcome, which is one admissible
result. -/
def sortRecs (blk : List T) : List T :=
  List.insertionSort (fun a b => key a ≤ key b) blk

/-- Output unit `DiskSort::output_t`: a sub-block plus the bucket-boundary
markers. -/
structure OutputT (T : Type) where
  is_begin : Bool
  is_end : Bool
  block : List T
  deriving DecidableEq

/-- Translation of `DiskSort::sort_bucket`: tag sub-block `i` with
`is_begin = (i == 0)` and `is_end = (i + 1 == input.size())`, sort each
sub-block, and forward the results in submission order (the `ThreadPool`
contract). -/
def sortBucket (input : List (List T)) : List (OutputT T) :=
  input.mapIdx fun i blk =>
    { is_begin := i == 0
      is_end := i + 1 == input.length
      block := sortRecs key blk }

/-- Loop body of `DiskSort::read`: process the given bucket indices in
order; for each, run `read_bucket` and hand the resulting sub-block sequence
to `sort_bucket`, whose outputs reach the single downstream consumer in
submission order. -/
def DiskSort.readLoop (M : Nat) :
    List Nat → DiskSort T → Except Err (DiskSort T × List (OutputT T))
  | [], s => .ok (s, [])
  | i :: rest, s =>
    match s.buckets[i]? with
    | some b =>
      match b.readOut key M with
      | .ok (b1, gs) =>
        match DiskSort.readLoop M rest { s with buckets := s.buckets.set i b1 } with
        | .ok (s1, outs) => .ok (s1, sortBucket key gs ++ outs)
        | .error e => .error e
      | .error e => .error e
    | none => .error .fopenFailed

/-- Translation of `DiskSort::read(output, M)`: submit every bucket index
`0 .. buckets.size() - 1` in ascending order to the read/group pool, whose
results feed the sort stage in submission order. -/
def DiskSort.readAll (M : Nat) (s : DiskSort T) :
    Except Err (DiskSort T × List (OutputT T)) :=
  DiskSort.readLoop key M (List.range s.buckets.length) s

/-- Per-bucket effect of `DiskSort::clear()`: `fclose(bucket.file)` — which
is undefined behaviour when the handle is already null, as it is after a
previous `clear` — then null the handle and `std::remove` the temp file. -/
def Bucket.clearStep (b : Bucket T) : Except Err (Bucket T) :=
  match b.handle with
  | some _ => .ok { b with handle := none, fileExists := false, fileRecs := [] }
  | none => .error .closedHandle

/-- Fold of `Bucket.clearStep` over the bucket vector. -/
def clearBuckets : List (Bucket T) → Except Err (List (Bucket T))
  | [] => .ok []
  | b :: rest =>
    match Bucket.clearStep b with
    | .ok b1 =>
      match clearBuckets rest with
      | .ok rest1 => .ok (b1 :: rest1)
      | .error e => .error e
    | .error e => .error e

/-- Translation of `DiskSort::clear()`: close every bucket's handle and
delete its temp file. -/
def DiskSort.clear (s : DiskSort T) : Except Err (DiskSort T) :=
  match clearBuckets s.buckets with
  | .ok bs => .ok { s with buckets := bs }
  | .error e => .error e

/-- Bucket with its handle forgotten: two buckets agree under `eraseHandle`
exactly when they differ at most in their `FILE*` handle. -/
def Bucket.eraseHandle (b : Bucket T) : Bucket T :=
  { b with handle := none }

/-- Specification vocabulary: a bucket evolved from `b` to `b'` by receiving
exactly the records `fl`, in order — the file-then-buffer record sequence
grew by `fl`, the record count grew by `fl.length`, and the file name,
handle and file existence are untouched. -/
def AddsTo (fl : List T) (b b' : Bucket T) : Prop :=
  b'.fileRecs ++ b'.buffer = b.fileRecs ++ b.buffer ++ fl ∧
  b'.numEntries = b.numEntries + fl.length ∧
  b'.fileName = b.fileName ∧ b'.handle = b.handle ∧ b'.fileExists = b.fileExists

/-- Record sequence that `read_bucket` would obtain for bucket `i`: the
first `num_entries` records of the bucket's file (an empty list for an
invalid index). -/
def bucketRecsOf (s : DiskSort T) (i : Nat) : List T :=
  match s.buckets[i]? with
  | some b => b.fileRecs.take b.numEntries
  | none => []

end Engine

/-! Concrete instances used by the witnesses: records are bare `Nat` keys
(`key = id`), serialized as a single byte (`disk_size = 1`), with the
configuration of the spec's concrete scenario (`key_size = 8`,
`log_num_buckets = 2`, buffer capacity 256, `M = 64`, ingested keys
`[5, 130, 200, 6, 199]`). -/

/-- Single-byte serialization of a `Nat` record. -/
def encNat : Nat → List Nat := fun t => [t % 256]

/-- Freshly constructed engine of the concrete scenario. -/
def sc0 : DiskSort Nat := DiskSort.init Nat 8 2 1 ("t")

/-- Result of ingesting the scenario's records. -/
def scIng : Except Err (DiskSort Nat) :=
  DiskSort.ingest id encNat 1 256 sc0 [5, 130, 200, 6, 199]

/-- Engine state after the scenario's ingestion. -/
def scS1 : DiskSort Nat :=
  match scIng with
  | .ok s => s
  | .error _ => sc0

/-- Scenario state after `finish()`. -/
def scFin : DiskSort Nat := scS1.finish

/-- Result of the scenario's `read(output, 64)`. -/
def scRead : Except Err (DiskSort Nat × List (OutputT Nat)) :=
  DiskSort.readAll id 64 scFin

/-- Engine state left by the scenario's read. -/
def scS2 : DiskSort Nat :=
  match scRead with
  | .ok r => r.1
  | .error _ => scFin

/-- Output units forwarded by the scenario's read. -/
def scOuts : List (OutputT Nat) :=
  match scRead with
  | .ok r => r.2
  | .error _ => []

/-- Scenario state after one successful `clear()`. -/
def c8cleared : DiskSort Nat :=
  match DiskSort.clear scFin with
  | .ok s => s
  | .error _ => scFin

/-- Scenario state after one successful `add`. -/
def c4s1 : DiskSort Nat :=
  match DiskSort.add id encNat 1 256 sc0 5 with
  | .ok s => s
  | .error _ => sc0

section Theorems

variable {T : Type} (key : T → Nat) (encode : T → List Nat)
variable (diskSize cap : Nat)

/-! Helper lemmas about the read/group stage. -/

/-- Partition keys are produced in ascending order (`std::map` iteration). -/
theorem partsOf_sorted (M : Nat) (recs : List T) :
    (partsOf key M recs).Sorted (· ≤ ·) :=
  List.sorted_insertionSort _ _

/-- Partition keys are pairwise distinct (they key a map). -/
theorem partsOf_nodup (M : Nat) (recs : List T) : (partsOf key M recs).Nodup :=
  (List.perm_insertionSort (· ≤ ·) ((recs.map fun t => key t / M).dedup)).symm.nodup
    (List.nodup_dedup _)

/-- Partition keys are strictly increasing. -/
theorem partsOf_pairwise_lt (M : Nat) (recs : List T) :
    (partsOf key M recs).Pairwise (· < ·) :=
  (partsOf_sorted key M recs).lt_of_le (partsOf_nodup key M recs)

/-- Membership in the partition-key list. -/
theorem mem_partsOf {M : Nat} {recs : List T} {p : Nat} :
    p ∈ partsOf key M recs ↔ ∃ t ∈ recs, key t / M = p := by
  unfold partsOf
  rw [(List.perm_insertionSort _ _).mem_iff, List.mem_dedup, List.mem_map]

/-- Every record of a sub-block comes from the grouped record stream. -/
theorem mem_of_mem_groups {M : Nat} {recs : List T} {g : List T} {a : T}
    (hg : g ∈ readBucketGroups key M recs) (ha : a ∈ g) : a ∈ recs := by
  unfold readBucketGroups at hg
  obtain ⟨p, _, rfl⟩ := List.mem_map.1 hg
  exact (List.mem_filter.1 ha).1

/-- All records of one sub-block share the same coarse partition value. -/
theorem groups_forall_part {M : Nat} {recs : List T} :
    ∀ g ∈ readBucketGroups key M recs, ∀ a ∈ g, ∀ c ∈ g, key a / M = key c / M := by
  intro g hg a ha c hc
  unfold readBucketGroups at hg
  obtain ⟨p, _, rfl⟩ := List.mem_map.1 hg
  have h1 := (List.mem_filter.1 ha).2
  have h2 := (List.mem_filter.1 hc).2
  simp only [beq_iff_eq] at h1 h2
  rw [h1, h2]

/-- No sub-block is empty: a partition value occurs only because some record
produced it. -/
theorem groups_ne_nil {M : Nat} {recs : List T} :
    ∀ g ∈ readBucketGroups key M recs, g ≠ [] := by
  intro g hg
  unfold readBucketGroups at hg
  obtain ⟨p, hp, rfl⟩ := List.mem_map.1 hg
  obtain ⟨t, ht, hpt⟩ := (mem_partsOf key).1 hp
  exact List.ne_nil_of_mem (List.mem_filter.2 ⟨ht, by simp [hpt]⟩)

/-- Sub-blocks are emitted in strictly increasing partition order. -/
theorem groups_pairwise {M : Nat} {recs : List T} :
    (readBucketGroups key M recs).Pairwise
      (fun g₁ g₂ => ∀ a ∈ g₁, ∀ c ∈ g₂, key a / M < key c / M) := by
  unfold readBucketGroups
  rw [List.pairwise_map]
  refine (partsOf_pairwise_lt key M recs).imp ?_
  intro p₁ p₂ hlt a ha c hc
  have h1 := (List.mem_filter.1 ha).2
  have h2 := (List.mem_filter.1 hc).2
  simp only [beq_iff_eq] at h1 h2
  rw [h1, h2]
  exact hlt

/-- C2: for a fixed target size `M`, every sub-block produced by the
read/group stage is nonempty and contains only records sharing a single
value of `key(record) / M`, and the sub-blocks are emitted in strictly
ascending order of that partition value. (`0 < M` keeps the `Nat` model
faithful: `key / M` with `M = 0` is undefined behaviour in C++.) -/
theorem c2_partition_groups (M : Nat) (recs : List T) (_hM : 0 < M) :
    (∀ g ∈ readBucketGroups key M recs,
      g ≠ [] ∧ ∀ a ∈ g, ∀ c ∈ g, key a / M = key c / M) ∧
    (readBucketGroups key M recs).Pairwise
      (fun g₁ g₂ => ∀ a ∈ g₁, ∀ c ∈ g₂, key a / M < key c / M) :=
  ⟨fun g hg => ⟨groups_ne_nil key g hg, groups_forall_part key g hg⟩,
   groups_pairwise key⟩

/-- Witness for C2 at the concrete scenario bucket content. -/
theorem c2_witness :
    0 < 64 ∧
    ((∀ g ∈ readBucketGroups id 64 [5, 6, 130],
        g ≠ [] ∧ ∀ a ∈ g, ∀ c ∈ g, id a / 64 = id c / 64) ∧
      (readBucketGroups id 64 [5, 6, 130]).Pairwise
        (fun g₁ g₂ => ∀ a ∈ g₁, ∀ c ∈ g₂, id a / 64 < id c / 64)) :=
  ⟨by decide, c2_partition_groups id 64 [5, 6, 130] (by decide)⟩

/-- C3: the sort stage tags exactly the first sub-block with `is_begin` and
exactly the last with `is_end`; with a single sub-block both flags are set,
and all other flags are false. -/
theorem c3_boundary_flags (input : List (List T)) (i : Nat)
    (hi : i < (sortBucket key input).length) :
    (((sortBucket key input)[i]).is_begin = true ↔ i = 0) ∧
    (((sortBucket key input)[i]).is_end = true ↔ i = input.length - 1) := by
  have hi' : i < input.length := by
    simpa [sortBucket] using hi
  constructor
  · simp [sortBucket]
  · simp only [sortBucket, List.getElem_mapIdx, beq_iff_eq]
    omega

/-- Witness for C3 on a three-block bucket, at the last block. -/
theorem c3_witness :
    (((sortBucket id [[3], [1], [2]]).get ⟨2, by decide⟩).is_begin = true ↔ 2 = 0) ∧
    (((sortBucket id [[3], [1], [2]]).get ⟨2, by decide⟩).is_end = true ↔
      2 = [[3], [1], [2]].length - 1) :=
  c3_boundary_flags id [[3], [1], [2]] 2 (by decide)

/-- C6: `add` on a finalized engine throws the logical-state error
`"read only"`; because the throw happens before any mutation, no bucket's
buffer, record count, or file is modified (no successor state is
produced). -/
theorem c6_add_read_only (s : DiskSort T) (t : T) (hfin : s.isFinished = true) :
    DiskSort.add key encode diskSize cap s t = .error Err.readOnly := by
  simp [DiskSort.add, hfin]

/-- Witness for C6 at the finished scenario state. -/
theorem c6_witness :
    scFin.isFinished = true ∧
    DiskSort.add id encNat 1 256 scFin 7 = .error Err.readOnly :=
  ⟨rfl, c6_add_read_only id encNat 1 256 scFin 7 rfl⟩

/-- C7: a record whose computed bucket index falls outside
`0 .. 2 ^ log_num_buckets - 1` makes `add` throw the logical error
`"index out of range"`; the throw happens before any bucket is touched, so
no buffer, offset, or record count changes (no successor state is
produced). -/
theorem c7_index_out_of_range (s : DiskSort T) (t : T)
    (hfin : s.isFinished = false)
    (hlen : s.buckets.length = 2 ^ s.logNumBuckets)
    (hidx : 2 ^ s.logNumBuckets ≤ key t >>> (s.keySize - s.logNumBuckets)) :
    DiskSort.add key encode diskSize cap s t = .error Err.indexOutOfRange := by
  have h : ¬ key t >>> (s.keySize - s.logNumBuckets) < s.buckets.length := by
    rw [hlen]
    omega
  simp [DiskSort.add, hfin, h]

/-- Witness for C7: key 300 needs 9 bits, but `key_size = 8`, so its bucket
index `300 >>> 6 = 4` is out of range. -/
theorem c7_witness :
    sc0.isFinished = false ∧
    sc0.buckets.length = 2 ^ sc0.logNumBuckets ∧
    2 ^ sc0.logNumBuckets ≤ id 300 >>> (sc0.keySize - sc0.logNumBuckets) ∧
    DiskSort.add id encNat 1 256 sc0 300 = .error Err.indexOutOfRange :=
  ⟨rfl, by decide, by decide,
    c7_index_out_of_range id encNat 1 256 sc0 300 rfl (by decide) (by decide)⟩

/-- C9: a bucket with zero records yields an empty sub-block sequence from
the read/group stage, and the sort stage dispatches nothing for an empty
sequence, so the downstream consumer never sees an `is_begin` or `is_end`
marker for an empty bucket. -/
theorem c9_empty_bucket (M : Nat) (b : Bucket T)
    (hz : b.numEntries = 0) (hx : b.fileExists = true) :
    Bucket.readOut key M b = .ok ({ b with handle := some Mode.read }, []) ∧
    sortBucket key ([] : List (List T)) = ([] : List (OutputT T)) := by
  refine ⟨?_, rfl⟩
  simp [Bucket.readOut, hx, hz, readBucketGroups, partsOf, List.insertionSort]

/-- Witness for C9 at a freshly created (hence empty) bucket. -/
theorem c9_witness :
    (initBucket Nat ("t") 1).numEntries = 0 ∧
    (initBucket Nat ("t") 1).fileExists = true ∧
    (Bucket.readOut id 64 (initBucket Nat ("t") 1) =
      .ok ({ initBucket Nat ("t") 1 with handle := some Mode.read }, []) ∧
      sortBucket id ([] : List (List Nat)) = ([] : List (OutputT Nat))) :=
  ⟨rfl, rfl, c9_empty_bucket id 64 (initBucket Nat ("t") 1) rfl rfl⟩

/-- Characterization of a successful `add`: the engine was not finalized,
the computed bucket index was in range, and exactly that bucket was replaced
by its `addBucketStep` image. -/
theorem add_ok_spec {s : DiskSort T} {t : T} {s' : DiskSort T}
    (h : DiskSort.add key encode diskSize cap s t = .ok s') :
    s.isFinished = false ∧
    ∃ hidx : key t >>> (s.keySize - s.logNumBuckets) < s.buckets.length,
      s' = { s with
        buckets := s.buckets.set (key t >>> (s.keySize - s.logNumBuckets))
          (addBucketStep encode diskSize cap
            (s.buckets.get ⟨key t >>> (s.keySize - s.logNumBuckets), hidx⟩) t) } := by
  unfold DiskSort.add at h
  split at h
  · exact absurd h (by simp)
  · next hfin =>
    split at h
    · next hidx =>
      refine ⟨by simpa using hfin, hidx, ?_⟩
      simpa [List.get_eq_getElem] using h.symm
    · exact absurd h (by simp)

/-- C4: when one record fits in an empty buffer (`disk_size ≤ capacity`),
the serialization performed by `add` always happens at an offset that leaves
the record inside the buffer: the flush-on-overflow check guarantees
`write offset + disk_size ≤ capacity`, and consequently every bucket's fill
offset stays at most the capacity across every successful `add`. -/
theorem c4_buffer_invariant (hds : diskSize ≤ cap)
    (hEnc : ∀ u : T, (encode u).length = diskSize)
    (s s' : DiskSort T) (t : T)
    (hinv : ∀ b ∈ s.buckets, b.offset ≤ cap)
    (hadd : DiskSort.add key encode diskSize cap s t = .ok s') :
    (∀ b ∈ s.buckets, (flushCheck diskSize cap b).offset + diskSize ≤ cap) ∧
    (∀ b' ∈ s'.buckets, b'.offset ≤ cap) := by
  have hfit : ∀ b ∈ s.buckets, (flushCheck diskSize cap b).offset + diskSize ≤ cap := by
    intro b hb
    unfold flushCheck
    split
    · next hgt => simpa [Bucket.flush] using hds
    · next hle =>
      have := hinv b hb
      omega
  refine ⟨hfit, ?_⟩
  obtain ⟨hfin, hidx, rfl⟩ := add_ok_spec key encode diskSize cap hadd
  intro b' hb'
  rcases List.mem_or_eq_of_mem_set hb' with hmem | rfl
  · exact hinv b' hmem
  · have hmem0 := List.get_mem s.buckets _ hidx
    have hf := hfit _ hmem0
    simp only [addBucketStep, hEnc]
    omega

/-- Witness for C4 at the first `add` of the concrete scenario. -/
theorem c4_witness :
    1 ≤ 256 ∧ (∀ u : Nat, (encNat u).length = 1) ∧
    (∀ b ∈ sc0.buckets, b.offset ≤ 256) ∧
    DiskSort.add id encNat 1 256 sc0 5 = .ok c4s1 ∧
    ((∀ b ∈ sc0.buckets, (flushCheck 1 256 b).offset + 1 ≤ 256) ∧
      (∀ b' ∈ c4s1.buckets, b'.offset ≤ 256)) :=
  ⟨by decide, fun u => rfl, by decide, rfl,
    c4_buffer_invariant id encNat 1 256 (by decide) (fun u => rfl) sc0 c4s1 5
      (by decide) rfl⟩

/-- Clearing a bucket vector whose handles are all open succeeds and leaves
every handle closed and every temp file removed. -/
theorem clearBuckets_ok {bs : List (Bucket T)}
    (hop : ∀ b ∈ bs, b.handle.isSome = true) :
    ∃ bs', clearBuckets bs = .ok bs' ∧ bs'.length = bs.length ∧
      ∀ b' ∈ bs', b'.handle = none ∧ b'.fileExists = false := by
  induction bs with
  | nil => exact ⟨[], rfl, rfl, by simp⟩
  | cons b rest ih =>
    obtain ⟨bs', h1, h2, h3⟩ := ih fun x hx => hop x (List.mem_cons_of_mem _ hx)
    have hb := hop b (List.mem_cons_self b rest)
    have hstep : Bucket.clearStep b =
        .ok { b with handle := none, fileExists := false, fileRecs := [] } := by
      unfold Bucket.clearStep
      cases hh : b.handle with
      | some m => rfl
      | none => rw [hh] at hb; simp at hb
    refine ⟨{ b with handle := none, fileExists := false, fileRecs := [] } :: bs',
      ?_, by simp [h2], ?_⟩
    · simp [clearBuckets, hstep, h1]
    · intro b' hb'
      rcases List.mem_cons.1 hb' with rfl | hmem
      · exact ⟨rfl, rfl⟩
      · exact h3 _ hmem

/-- Clearing a bucket vector whose first bucket's handle is already null
fails: the C++ passes the null `FILE*` straight to `fclose`. -/
theorem clearBuckets_err {b : Bucket T} {rest : List (Bucket T)}
    (hn : b.handle = none) (bs' : List (Bucket T)) :
    clearBuckets (b :: rest) ≠ .ok bs' := by
  intro h
  unfold clearBuckets Bucket.clearStep at h
  rw [hn] at h
  simp at h

/-- C8 (amended): `clear()` on an engine whose handles are all open — as
they are after `finish()` — closes every bucket's file handle and removes
every bucket's temp file; but `clear()` is not safely repeatable: a second
call passes the now-null handle of the first bucket to `fclose`, which is
undefined behaviour, rather than leaving the state unchanged. -/
theorem c8_clear_amended (s : DiskSort T)
    (hop : ∀ b ∈ s.buckets, b.handle.isSome = true) :
    ∃ s', DiskSort.clear s = .ok s' ∧
      s'.buckets.length = s.buckets.length ∧
      (∀ b' ∈ s'.buckets, b'.handle = none ∧ b'.fileExists = false) ∧
      (s.buckets ≠ [] → ∀ s'', DiskSort.clear s' ≠ .ok s'') := by
  obtain ⟨bs', h1, h2, h3⟩ := clearBuckets_ok hop
  refine ⟨{ s with buckets := bs' }, ?_, h2, h3, ?_⟩
  · unfold DiskSort.clear
    rw [h1]
  · intro hne s'' hok
    unfold DiskSort.clear at hok
    cases hbs : bs' with
    | nil =>
      apply hne
      have h0 : s.buckets.length = 0 := by rw [← h2, hbs]; rfl
      exact List.length_eq_zero.1 h0
    | cons b0 rest0 =>
      have hn : b0.handle = none :=
        (h3 b0 (by rw [hbs]; exact List.mem_cons_self b0 rest0)).1
      rw [hbs] at hok
      cases hcb : clearBuckets (b0 :: rest0) with
      | ok bs2 => exact clearBuckets_err hn bs2 hcb
      | error e => rw [hcb] at hok; simp at hok

/-- Counterexample for C8 as stated: after `finish()` and one successful
`clear()`, a second `clear()` hits `fclose(NULL)` (undefined behaviour,
modelled as the `closedHandle` error) instead of being a safe no-op. -/
theorem c8_counterexample :
    DiskSort.clear scFin = .ok c8cleared ∧
    DiskSort.clear c8cleared = .error Err.closedHandle := by
  exact ⟨rfl, rfl⟩

/-- Witness for the amended C8 at the finished scenario state. -/
theorem c8_witness :
    (∀ b ∈ scFin.buckets, b.handle.isSome = true) ∧
    (∃ s', DiskSort.clear scFin = .ok s' ∧
      s'.buckets.length = scFin.buckets.length ∧
      (∀ b' ∈ s'.buckets, b'.handle = none ∧ b'.fileExists = false) ∧
      (scFin.buckets ≠ [] → ∀ s'', DiskSort.clear s' ≠ .ok s'')) :=
  ⟨by decide, c8_clear_amended scFin (by decide)⟩

/-- Composition of two `AddsTo` evolutions. -/
theorem addsTo_trans {fl₁ fl₂ : List T} {b b₁ b₂ : Bucket T}
    (h₁ : AddsTo fl₁ b b₁) (h₂ : AddsTo fl₂ b₁ b₂) : AddsTo (fl₁ ++ fl₂) b b₂ := by
  obtain ⟨a1, a2, a3, a4, a5⟩ := h₁
  obtain ⟨c1, c2, c3, c4, c5⟩ := h₂
  refine ⟨?_, ?_, c3.trans a3, c4.trans a4, c5.trans a5⟩
  · rw [c1, a1, List.append_assoc]
  · rw [c2, a2, List.length_append]
    omega

/-- The bucket update done by one `add` is an `AddsTo [t]` evolution:
flushing moves buffered records to the file without reordering, and the
record is then appended to the buffer. -/
theorem addBucketStep_addsTo (b : Bucket T) (t : T) :
    AddsTo [t] b (addBucketStep encode diskSize cap b t) := by
  unfold AddsTo addBucketStep flushCheck Bucket.flush
  split
  · simp
  · simp

/-- Master characterization of a successful ingestion: the configuration
fields are untouched, every ingested record's bucket index was in range, and
bucket `i` received exactly the ingested records routed to index `i`, in
ingestion order. -/
theorem ingest_ok_spec {l : List T} {s s' : DiskSort T}
    (h : DiskSort.ingest key encode diskSize cap s l = .ok s') :
    s'.keySize = s.keySize ∧ s'.logNumBuckets = s.logNumBuckets ∧
    s'.isFinished = s.isFinished ∧ s'.buckets.length = s.buckets.length ∧
    (∀ t ∈ l, key t >>> (s.keySize - s.logNumBuckets) < s.buckets.length) ∧
    ∀ i (hi : i < s.buckets.length) (hi' : i < s'.buckets.length),
      AddsTo (l.filter fun u => key u >>> (s.keySize - s.logNumBuckets) == i)
        (s.buckets.get ⟨i, hi⟩) (s'.buckets.get ⟨i, hi'⟩) := by
  induction l generalizing s with
  | nil =>
    replace h : Except.ok s = Except.ok s' := h
    simp only [Except.ok.injEq] at h
    subst h
    refine ⟨rfl, rfl, rfl, rfl, by simp, ?_⟩
    intro i hi hi'
    exact ⟨by simp, by simp, rfl, rfl, rfl⟩
  | cons t rest ih =>
    cases hadd : DiskSort.add key encode diskSize cap s t with
    | error e =>
      replace h : (match DiskSort.add key encode diskSize cap s t with
        | .ok s1 => DiskSort.ingest key encode diskSize cap s1 rest
        | .error e => .error e) = .ok s' := h
      rw [hadd] at h
      simp at h
    | ok s1 =>
      replace h : (match DiskSort.add key encode diskSize cap s t with
        | .ok s1 => DiskSort.ingest key encode diskSize cap s1 rest
        | .error e => .error e) = .ok s' := h
      rw [hadd] at h
      replace h : DiskSort.ingest key encode diskSize cap s1 rest = .ok s' := h
      obtain ⟨hfin, hidx, rfl⟩ := add_ok_spec key encode diskSize cap hadd
      obtain ⟨e1, e2, e3, e4, e5, e6⟩ := ih h
      have hlen1 : (s.buckets.set (key t >>> (s.keySize - s.logNumBuckets))
          (addBucketStep encode diskSize cap
            (s.buckets.get ⟨key t >>> (s.keySize - s.logNumBuckets), hidx⟩) t)).length =
          s.buckets.length := List.length_set ..
      refine ⟨e1, e2, e3, e4.trans hlen1, ?_, ?_⟩
      · intro u hu
        rcases List.mem_cons.1 hu with rfl | hmem
        · exact hidx
        · exact (hlen1 ▸ e5 u hmem)
      · intro i hi hi'
        have hi1 : i < (s.buckets.set (key t >>> (s.keySize - s.logNumBuckets))
            (addBucketStep encode diskSize cap
              (s.buckets.get ⟨key t >>> (s.keySize - s.logNumBuckets), hidx⟩) t)).length := by
          rw [hlen1]; exact hi
        have e6' := e6 i hi1 hi'
        by_cases hit : key t >>> (s.keySize - s.logNumBuckets) = i
        · have hget : (s.buckets.set (key t >>> (s.keySize - s.logNumBuckets))
              (addBucketStep encode diskSize cap
                (s.buckets.get ⟨key t >>> (s.keySize - s.logNumBuckets), hidx⟩) t)).get
                ⟨i, hi1⟩ =
              addBucketStep encode diskSize cap
                (s.buckets.get ⟨key t >>> (s.keySize - s.logNumBuckets), hidx⟩) t := by
            subst hit
            simp
          rw [hget] at e6'
          have hstep := addBucketStep_addsTo encode diskSize cap
            (s.buckets.get ⟨key t >>> (s.keySize - s.logNumBuckets), hidx⟩) t
          have hcomp := addsTo_trans hstep e6'
          have hfl : (List.filter (fun u => key u >>> (s.keySize - s.logNumBuckets) == i)
              (t :: rest)) =
              t :: rest.filter (fun u => key u >>> (s.keySize - s.logNumBuckets) == i) := by
            rw [List.filter_cons_of_pos (by simp [hit])]
          rw [hfl]
          have hget0 : s.buckets.get ⟨key t >>> (s.keySize - s.logNumBuckets), hidx⟩ =
              s.buckets.get ⟨i, hi⟩ := by
            subst hit; rfl
          rw [hget0] at hcomp
          exact hcomp
        · have hget : (s.buckets.set (key t >>> (s.keySize - s.logNumBuckets))
              (addBucketStep encode diskSize cap
                (s.buckets.get ⟨key t >>> (s.keySize - s.logNumBuckets), hidx⟩) t)).get
                ⟨i, hi1⟩ = s.buckets.get ⟨i, hi⟩ := by
            simp [List.getElem_set_ne hit]
          rw [hget] at e6'
          have hfl : (List.filter (fun u => key u >>> (s.keySize - s.logNumBuckets) == i)
              (t :: rest)) =
              rest.filter (fun u => key u >>> (s.keySize - s.logNumBuckets) == i) := by
            rw [List.filter_cons_of_neg (by simp [hit])]
          rw [hfl]
          exact e6'

/-- Length of a concatenation of fixed-size serializations. -/
theorem length_flatMap_const {fl : List T}
    (hEnc : ∀ u : T, (encode u).length = diskSize) :
    (fl.flatMap encode).length = fl.length * diskSize := by
  induction fl with
  | nil => simp
  | cons a as ih =>
    simp only [List.flatMap_cons, List.length_append, hEnc, ih, List.length_cons]
    rw [Nat.succ_mul]
    omega

/-- Bucket state of a finished engine that was freshly constructed and then
ingested `l`: bucket `i`'s file holds exactly the records routed to index
`i` in ingestion order, its record count matches, its buffer is empty and
its temp file exists. -/
theorem finish_ingest_bucket (ks lnb nt : Nat) (pre : String) (l : List T)
    {s1 : DiskSort T}
    (hing : DiskSort.ingest key encode diskSize cap
      (DiskSort.init T ks lnb nt pre) l = .ok s1) :
    (DiskSort.finish s1).buckets.length = 1 <<< lnb ∧
    ∀ i (hi : i < (DiskSort.finish s1).buckets.length),
      ((DiskSort.finish s1).buckets.get ⟨i, hi⟩).fileRecs =
        l.filter (fun u => key u >>> (ks - lnb) == i) ∧
      ((DiskSort.finish s1).buckets.get ⟨i, hi⟩).numEntries =
        (l.filter (fun u => key u >>> (ks - lnb) == i)).length ∧
      ((DiskSort.finish s1).buckets.get ⟨i, hi⟩).buffer = [] ∧
      ((DiskSort.finish s1).buckets.get ⟨i, hi⟩).fileExists = true := by
  obtain ⟨e1, e2, e3, e4, e5, e6⟩ := ingest_ok_spec key encode diskSize cap hing
  have hninit : (DiskSort.init T ks lnb nt pre).buckets.length = 1 <<< lnb := by
    simp [DiskSort.init]
  have hlen1 : s1.buckets.length = 1 <<< lnb := e4.trans hninit
  have hflen : (DiskSort.finish s1).buckets.length = s1.buckets.length := by
    simp [DiskSort.finish]
  refine ⟨hflen.trans hlen1, ?_⟩
  intro i hi
  have hi1 : i < s1.buckets.length := hflen ▸ hi
  have hi0 : i < (DiskSort.init T ks lnb nt pre).buckets.length := by
    rw [hninit, ← hlen1]
    exact hi1
  have hgetf : (DiskSort.finish s1).buckets.get ⟨i, hi⟩ =
      Bucket.flush (s1.buckets.get ⟨i, hi1⟩) := by
    simp [DiskSort.finish]
  have hget0 : (DiskSort.init T ks lnb nt pre).buckets.get ⟨i, hi0⟩ =
      initBucket T pre i := by
    simp [DiskSort.init]
  have h6 := e6 i hi0 hi1
  rw [hget0] at h6
  obtain ⟨a1, a2, a3, a4, a5⟩ := h6
  simp only [initBucket, DiskSort.init, List.nil_append] at a1 a2 a5
  rw [hgetf]
  refine ⟨?_, ?_, rfl, ?_⟩
  · simpa [Bucket.flush] using a1
  · simpa [Bucket.flush] using a2
  · simpa [Bucket.flush] using a5

/-- C5: after any ingestion from a fresh construction followed by
`finish()`, every bucket's file is the raw concatenation of the serialized
bytes of exactly the records routed to it, in ingestion order — so its byte
length is `num_entries * disk_size`, with no gaps and no duplication, even
when the ingestion crossed flush boundaries. -/
theorem c5_flush_bytes (ks lnb nt : Nat) (pre : String) (l : List T)
    {s1 : DiskSort T}
    (hEnc : ∀ u : T, (encode u).length = diskSize)
    (hing : DiskSort.ingest key encode diskSize cap
      (DiskSort.init T ks lnb nt pre) l = .ok s1) :
    ∀ i (hi : i < (DiskSort.finish s1).buckets.length),
      Bucket.fileBytes encode ((DiskSort.finish s1).buckets.get ⟨i, hi⟩) =
        (l.filter (fun u => key u >>> (ks - lnb) == i)).flatMap encode ∧
      (Bucket.fileBytes encode ((DiskSort.finish s1).buckets.get ⟨i, hi⟩)).length =
        ((DiskSort.finish s1).buckets.get ⟨i, hi⟩).numEntries * diskSize := by
  obtain ⟨hlen, hb⟩ := finish_ingest_bucket key encode diskSize cap ks lnb nt pre l hing
  intro i hi
  obtain ⟨h1, h2, h3, h4⟩ := hb i hi
  constructor
  · unfold Bucket.fileBytes
    rw [h1]
  · unfold Bucket.fileBytes
    rw [h1, h2, length_flatMap_const encode diskSize hEnc]

/-- Witness for C5 at bucket 0 of the concrete scenario. -/
theorem c5_witness :
    (∀ u : Nat, (encNat u).length = 1) ∧
    DiskSort.ingest id encNat 1 256 (DiskSort.init Nat 8 2 1 ("t"))
      [5, 130, 200, 6, 199] = .ok scS1 ∧
    (Bucket.fileBytes encNat ((DiskSort.finish scS1).buckets.get ⟨0, by decide⟩) =
      ([5, 130, 200, 6, 199].filter (fun u => id u >>> (8 - 2) == 0)).flatMap encNat ∧
      (Bucket.fileBytes encNat
          ((DiskSort.finish scS1).buckets.get ⟨0, by decide⟩)).length =
        ((DiskSort.finish scS1).buckets.get ⟨0, by decide⟩).numEntries * 1) :=
  ⟨fun u => rfl, rfl,
    c5_flush_bytes id encNat 1 256 8 2 1 ("t") [5, 130, 200, 6, 199]
      (fun u => rfl) rfl 0 (by decide)⟩

/-- Value of `read_bucket` on a readable bucket. -/
theorem readOut_ok_of (M : Nat) (b : Bucket T)
    (hx : b.fileExists = true) (hn : b.numEntries ≤ b.fileRecs.length) :
    Bucket.readOut key M b = .ok ({ b with handle := some Mode.read },
      readBucketGroups key M (b.fileRecs.take b.numEntries)) := by
  unfold Bucket.readOut
  rw [if_pos hx, if_pos hn]

/-- Replacing a bucket by one with the same file and count does not change
the record stream any `read_bucket` call would see. -/
theorem bucketRecsOf_set {s : DiskSort T} {i : Nat} {b : Bucket T}
    (b' : Bucket T) (hb : s.buckets[i]? = some b)
    (hfr : b'.fileRecs = b.fileRecs) (hnum : b'.numEntries = b.numEntries) :
    ∀ j, bucketRecsOf { s with buckets := s.buckets.set i b' } j = bucketRecsOf s j := by
  intro j
  by_cases hij : i = j
  · subst hij
    have hlt : i < s.buckets.length := by
      rcases List.getElem?_eq_some.1 hb with ⟨h, _⟩
      exact h
    simp [bucketRecsOf, List.getElem?_set, hlt, hb, hfr, hnum]
  · simp [bucketRecsOf, List.getElem?_set_ne hij]

/-- Success of the read/group/sort loop on any state whose listed buckets
are readable, with the forwarded output units enumerated bucket by bucket in
submission order. -/
theorem readLoop_ok_spec (M : Nat) (idxs : List Nat) :
    ∀ s : DiskSort T,
    (∀ i ∈ idxs, ∃ b, s.buckets[i]? = some b ∧ b.fileExists = true ∧
      b.numEntries ≤ b.fileRecs.length) →
    ∃ s', DiskSort.readLoop key M idxs s = .ok (s',
      (idxs.map fun i =>
        sortBucket key (readBucketGroups key M (bucketRecsOf s i))).flatten) := by
  induction idxs with
  | nil =>
    intro s _
    exact ⟨s, rfl⟩
  | cons i rest ih =>
    intro s hc
    obtain ⟨b, hb, hx, hn⟩ := hc i (List.mem_cons_self i rest)
    have hlt : i < s.buckets.length := by
      rcases List.getElem?_eq_some.1 hb with ⟨h, _⟩
      exact h
    have hro := readOut_ok_of key M b hx hn
    have hrecs := bucketRecsOf_set { b with handle := some Mode.read } hb rfl rfl
    have hc' : ∀ j ∈ rest, ∃ bj,
        ({ s with buckets := s.buckets.set i { b with handle := some Mode.read } } :
          DiskSort T).buckets[j]? = some bj ∧ bj.fileExists = true ∧
        bj.numEntries ≤ bj.fileRecs.length := by
      intro j hj
      obtain ⟨bj, hbj, hxj, hnj⟩ := hc j (List.mem_cons_of_mem _ hj)
      by_cases hij : i = j
      · subst hij
        have hbe : bj = b := by
          rw [hb] at hbj
          exact (Option.some.inj hbj).symm
        subst hbe
        refine ⟨{ bj with handle := some Mode.read }, ?_, hxj, hnj⟩
        show (s.buckets.set i { bj with handle := some Mode.read })[i]? = _
        rw [List.getElem?_set]
        simp [hlt]
      · refine ⟨bj, ?_, hxj, hnj⟩
        show (s.buckets.set i { b with handle := some Mode.read })[j]? = some bj
        rw [List.getElem?_set_ne hij]
        exact hbj
    obtain ⟨s', hs'⟩ := ih _ hc'
    have hmap : rest.map (fun j => sortBucket key (readBucketGroups key M
        (bucketRecsOf ({ s with
          buckets := s.buckets.set i { b with handle := some Mode.read } } :
            DiskSort T) j))) =
        rest.map (fun j => sortBucket key (readBucketGroups key M (bucketRecsOf s j))) :=
      List.map_congr_left fun j _ => by rw [hrecs j]
    rw [hmap] at hs'
    have hbi : bucketRecsOf s i = b.fileRecs.take b.numEntries := by
      simp [bucketRecsOf, hb]
    refine ⟨s', ?_⟩
    unfold DiskSort.readLoop
    simp only [hb, hro, hs', List.map_cons, List.flatten_cons, hbi]

/-- Pointwise permutations of the chunks of a flattening. -/
theorem flatten_map_perm {ι : Type} (idxs : List ι) (f g : ι → List T)
    (h : ∀ i ∈ idxs, (f i).Perm (g i)) :
    ((idxs.map f).flatten).Perm ((idxs.map g).flatten) := by
  induction idxs with
  | nil => simp
  | cons i rest ih =>
    simp only [List.map_cons, List.flatten_cons]
    exact (h i (List.mem_cons_self i rest)).append
      (ih fun j hj => h j (List.mem_cons_of_mem _ hj))

/-- Sum of an indicator map over a list avoiding the hit. -/
theorem sum_map_ite_zero (x c : Nat) :
    ∀ parts : List Nat, x ∉ parts →
      ((parts.map fun p => if x = p then c else 0).sum = 0) := by
  intro parts
  induction parts with
  | nil => intro _; rfl
  | cons p rest ih =>
    intro hx
    have h1 : x ≠ p := fun h => hx (h ▸ List.mem_cons_self p rest)
    simp only [List.map_cons, List.sum_cons, if_neg h1, Nat.zero_add]
    exact ih fun h => hx (List.mem_cons_of_mem _ h)

/-- Sum of an indicator map over a duplicate-free list containing the hit. -/
theorem sum_map_ite_mem (x c : Nat) :
    ∀ parts : List Nat, parts.Nodup → x ∈ parts →
      ((parts.map fun p => if x = p then c else 0).sum = c) := by
  intro parts
  induction parts with
  | nil => intro _ h; cases h
  | cons p rest ih =>
    intro hnd hx
    rcases List.mem_cons.1 hx with rfl | hmem
    · have hnot : x ∉ rest := (List.nodup_cons.1 hnd).1
      simp [sum_map_ite_zero x c rest hnot]
    · have h1 : x ≠ p := by
        intro h
        exact (List.nodup_cons.1 hnd).1 (h ▸ hmem)
      simp only [List.map_cons, List.sum_cons, if_neg h1, Nat.zero_add]
      exact ih (List.nodup_cons.1 hnd).2 hmem

/-- Concatenating the fibers of `f` over a duplicate-free list of values
covering a record list permutes that record list. -/
theorem flatten_filter_perm [DecidableEq T] (f : T → Nat) (recs : List T)
    (parts : List Nat) (hnd : parts.Nodup) (hcov : ∀ t ∈ recs, f t ∈ parts) :
    ((parts.map fun p => recs.filter fun t => f t == p).flatten).Perm recs := by
  rw [List.perm_iff_count]
  intro a
  rw [List.count_flatten, List.map_map]
  simp only [Function.comp_def]
  have hcnt : ∀ p : Nat, List.count a (recs.filter fun t => f t == p) =
      if f a = p then List.count a recs else 0 := by
    intro p
    by_cases hfa : f a = p
    · rw [if_pos hfa]
      exact List.count_filter (by simp [hfa])
    · rw [if_neg hfa, List.count_eq_zero]
      intro hmem
      exact hfa (by simpa using (List.mem_filter.1 hmem).2)
  rw [List.map_congr_left fun p _ => hcnt p]
  by_cases ha : a ∈ recs
  · exact sum_map_ite_mem (f a) (List.count a recs) parts hnd (hcov a ha)
  · have h0 : List.count a recs = 0 := List.count_eq_zero_of_not_mem ha
    rw [h0]
    simp

/-- Flattening the ordered sub-blocks of one bucket permutes the bucket's
record stream. -/
theorem groups_flatten_perm [DecidableEq T] (M : Nat) (recs : List T) :
    ((readBucketGroups key M recs).flatten).Perm recs := by
  unfold readBucketGroups
  exact flatten_filter_perm (fun t => key t / M) recs _ (partsOf_nodup key M recs)
    (fun t ht => (mem_partsOf key).2 ⟨t, ht, rfl⟩)

/-- Sorting a sub-block permutes it. -/
theorem sortRecs_perm (blk : List T) : (sortRecs key blk).Perm blk :=
  List.perm_insertionSort _ _

/-- A sorted sub-block is non-decreasing in the key. -/
theorem sortRecs_sorted (blk : List T) :
    (sortRecs key blk).Pairwise fun a c => key a ≤ key c := by
  haveI : IsTotal T fun a c => key a ≤ key c := ⟨fun a c => Nat.le_total _ _⟩
  haveI : IsTrans T fun a c => key a ≤ key c :=
    ⟨fun _ _ _ h₁ h₂ => Nat.le_trans h₁ h₂⟩
  exact List.sorted_insertionSort _ _

/-- The blocks carried by the sort stage's outputs are the sorted input
sub-blocks, in submission order. -/
theorem sortBucket_map_block (input : List (List T)) :
    (sortBucket key input).map OutputT.block = input.map (sortRecs key) := by
  apply List.ext_getElem
  · simp [sortBucket]
  · intro i h₁ h₂
    simp [sortBucket]

/-- Restructuring of the double flattening of per-bucket output blocks. -/
theorem map_block_flatten_flatten {ι : Type} (idxs : List ι)
    (u : ι → List (OutputT T)) :
    ((((idxs.map u).flatten).map OutputT.block)).flatten =
      ((idxs.map fun i => (((u i).map OutputT.block)).flatten)).flatten := by
  induction idxs with
  | nil => rfl
  | cons i rest ih =>
    simp only [List.map_cons, List.flatten_cons, List.map_append,
      List.flatten_append, ih]

/-- Records of a bucket's sorted sub-blocks all come from the bucket's
record stream. -/
theorem mem_of_mem_bucketBlocks {M : Nat} {recs : List T} {a : T}
    (ha : a ∈ (((readBucketGroups key M recs).map (sortRecs key))).flatten) :
    a ∈ recs := by
  obtain ⟨blk, hblk, hab⟩ := List.mem_flatten.1 ha
  obtain ⟨g, hg, rfl⟩ := List.mem_map.1 hblk
  exact mem_of_mem_groups key hg (((sortRecs_perm key g).mem_iff).1 hab)

/-- Across one bucket's sorted sub-blocks, keys never decrease from one
sub-block to a later one. -/
theorem bucketBlocks_pairwise_key (M : Nat) (recs : List T) :
    (((readBucketGroups key M recs).map (sortRecs key))).Pairwise
      (fun b₁ b₂ => ∀ a ∈ b₁, ∀ c ∈ b₂, key a ≤ key c) := by
  rw [List.pairwise_map]
  refine (groups_pairwise key).imp ?_
  intro g₁ g₂ hlt a ha c hc
  have ha' := ((sortRecs_perm key g₁).mem_iff).1 ha
  have hc' := ((sortRecs_perm key g₂).mem_iff).1 hc
  exact Nat.le_of_lt (Nat.lt_of_div_lt_div (hlt a ha' c hc'))

/-- Within one bucket, the concatenation of the sorted sub-blocks is
non-decreasing in the key. -/
theorem bucketBlocks_sorted (M : Nat) (recs : List T) :
    ((((readBucketGroups key M recs).map (sortRecs key))).flatten).Pairwise
      (fun a c => key a ≤ key c) := by
  rw [List.pairwise_flatten]
  refine ⟨?_, bucketBlocks_pairwise_key key M recs⟩
  intro blk hblk
  obtain ⟨g, hg, rfl⟩ := List.mem_map.1 hblk
  exact sortRecs_sorted key g

/-- Keys whose high bits are strictly ordered are themselves ordered. -/
theorem le_of_shiftRight_lt {x y sh : Nat} (h : x >>> sh < y >>> sh) : x ≤ y := by
  by_contra hc
  have hyx : y ≤ x := Nat.le_of_lt (Nat.lt_of_not_le hc)
  have : y >>> sh ≤ x >>> sh := by
    simp only [Nat.shiftRight_eq_div_pow]
    exact Nat.div_le_div_right hyx
  omega

/-- Record stream a bucket read yields, through its `get` form. -/
theorem bucketRecsOf_eq_of_lt {s : DiskSort T} {i : Nat} (hi : i < s.buckets.length) :
    bucketRecsOf s i =
      (s.buckets.get ⟨i, hi⟩).fileRecs.take (s.buckets.get ⟨i, hi⟩).numEntries := by
  simp [bucketRecsOf, List.getElem?_eq_getElem hi]

/-- C1: for every record sequence ingested from a fresh construction and
read back with `read(M)` after `finish()`, the concatenation of all
forwarded sub-blocks is a permutation of the ingested records, and its key
sequence is globally non-decreasing — buckets are visited in ascending index
order, sub-blocks within a bucket in ascending `key / M` partition order,
and each sub-block is sorted ascending by key. (`0 < M` and
`log_num_buckets ≤ key_size` keep the `Nat` model of the C++ division and
shift faithful.) -/
theorem c1_global_order [DecidableEq T] (ks lnb nt M : Nat) (pre : String)
    (l : List T) {s1 : DiskSort T}
    (_hM : 0 < M) (_hkl : lnb ≤ ks)
    (hing : DiskSort.ingest key encode diskSize cap
      (DiskSort.init T ks lnb nt pre) l = .ok s1) :
    ∃ s2 outs,
      DiskSort.readAll key M (DiskSort.finish s1) = .ok (s2, outs) ∧
      ((outs.map OutputT.block).flatten).Perm l ∧
      List.Sorted (· ≤ ·) (((outs.map OutputT.block).flatten).map key) := by
  obtain ⟨hflen, hb⟩ := finish_ingest_bucket key encode diskSize cap ks lnb nt pre l hing
  have hcov : ∀ t ∈ l, key t >>> (ks - lnb) < 1 <<< lnb := by
    obtain ⟨e1, e2, e3, e4, e5, e6⟩ := ingest_ok_spec key encode diskSize cap hing
    intro t ht
    have h5 := e5 t ht
    have hninit : (DiskSort.init T ks lnb nt pre).buckets.length = 1 <<< lnb := by
      simp [DiskSort.init]
    rw [hninit] at h5
    exact h5
  have hcond : ∀ i ∈ List.range (DiskSort.finish s1).buckets.length,
      ∃ b, (DiskSort.finish s1).buckets[i]? = some b ∧ b.fileExists = true ∧
        b.numEntries ≤ b.fileRecs.length := by
    intro i hi
    have hi' : i < (DiskSort.finish s1).buckets.length := List.mem_range.1 hi
    refine ⟨(DiskSort.finish s1).buckets.get ⟨i, hi'⟩, ?_, (hb i hi').2.2.2, ?_⟩
    · rw [List.getElem?_eq_getElem hi']
      rfl
    · rw [(hb i hi').2.1, (hb i hi').1]
  obtain ⟨s2, hs2⟩ := readLoop_ok_spec key M
    (List.range (DiskSort.finish s1).buckets.length) (DiskSort.finish s1) hcond
  have hrecs : ∀ i, i < (DiskSort.finish s1).buckets.length →
      bucketRecsOf (DiskSort.finish s1) i =
        l.filter (fun u => key u >>> (ks - lnb) == i) := by
    intro i hi'
    rw [bucketRecsOf_eq_of_lt hi', (hb i hi').1, (hb i hi').2.1]
    exact List.take_length _
  have houts : (List.range (DiskSort.finish s1).buckets.length).map
      (fun i => sortBucket key (readBucketGroups key M (bucketRecsOf (DiskSort.finish s1) i))) =
      (List.range (DiskSort.finish s1).buckets.length).map
      (fun i => sortBucket key (readBucketGroups key M
        (l.filter (fun u => key u >>> (ks - lnb) == i)))) :=
    List.map_congr_left fun i hi => by rw [hrecs i (List.mem_range.1 hi)]
  rw [houts] at hs2
  have hE : (((((List.range (DiskSort.finish s1).buckets.length).map
      (fun i => sortBucket key (readBucketGroups key M
        (l.filter (fun u => key u >>> (ks - lnb) == i))))).flatten).map
          OutputT.block)).flatten =
      ((List.range (DiskSort.finish s1).buckets.length).map
        (fun i => (((readBucketGroups key M
          (l.filter (fun u => key u >>> (ks - lnb) == i))).map
            (sortRecs key))).flatten)).flatten := by
    rw [map_block_flatten_flatten]
    refine congrArg List.flatten (List.map_congr_left ?_)
    intro i _
    rw [sortBucket_map_block]
  have hperm : (((((List.range (DiskSort.finish s1).buckets.length).map
      (fun i => sortBucket key (readBucketGroups key M
        (l.filter (fun u => key u >>> (ks - lnb) == i))))).flatten).map
          OutputT.block)).flatten.Perm l := by
    rw [hE]
    have hp1 : ∀ i ∈ List.range (DiskSort.finish s1).buckets.length,
        ((((readBucketGroups key M
          (l.filter (fun u => key u >>> (ks - lnb) == i))).map
            (sortRecs key))).flatten).Perm
          (l.filter (fun u => key u >>> (ks - lnb) == i)) := by
      intro i _
      have q1 := flatten_map_perm
        (readBucketGroups key M (l.filter (fun u => key u >>> (ks - lnb) == i)))
        (sortRecs key) (fun g => g)
        (fun g _ => sortRecs_perm key g)
      simp only [List.map_id'] at q1
      exact q1.trans (groups_flatten_perm key M _)
    have hp2 := flatten_map_perm (List.range (DiskSort.finish s1).buckets.length)
      _ _ hp1
    refine hp2.trans ?_
    exact flatten_filter_perm (fun u => key u >>> (ks - lnb)) l
      (List.range (DiskSort.finish s1).buckets.length)
      (List.nodup_range (DiskSort.finish s1).buckets.length)
      (fun t ht => List.mem_range.2 (by rw [hflen]; exact hcov t ht))
  have hpairB : (((List.range (DiskSort.finish s1).buckets.length).map
      (fun i => (((readBucketGroups key M
        (l.filter (fun u => key u >>> (ks - lnb) == i))).map
          (sortRecs key))).flatten))).Pairwise
      (fun B₁ B₂ => ∀ a ∈ B₁, ∀ c ∈ B₂, key a ≤ key c) := by
    rw [List.pairwise_map]
    refine (List.pairwise_lt_range (DiskSort.finish s1).buckets.length).imp ?_
    intro i j hij a ha c hc
    have hai : key a >>> (ks - lnb) = i := by
      have hm := mem_of_mem_bucketBlocks key ha
      simpa using (List.mem_filter.1 hm).2
    have hcj : key c >>> (ks - lnb) = j := by
      have hm := mem_of_mem_bucketBlocks key hc
      simpa using (List.mem_filter.1 hm).2
    have hlt : key a >>> (ks - lnb) < key c >>> (ks - lnb) := by
      rw [hai, hcj]
      exact hij
    exact le_of_shiftRight_lt hlt
  have hsortE : ((((List.range (DiskSort.finish s1).buckets.length).map
      (fun i => (((readBucketGroups key M
        (l.filter (fun u => key u >>> (ks - lnb) == i))).map
          (sortRecs key))).flatten))).flatten).Pairwise
      (fun a c => key a ≤ key c) := by
    rw [List.pairwise_flatten]
    refine ⟨?_, hpairB⟩
    intro B hB
    obtain ⟨i, _, rfl⟩ := List.mem_map.1 hB
    exact bucketBlocks_sorted key M _
  refine ⟨s2, _, hs2, hperm, ?_⟩
  rw [hE]
  exact (List.pairwise_map).2 hsortE

/-- Witness for C1 at the spec's concrete scenario. -/
theorem c1_witness :
    0 < 64 ∧ 2 ≤ 8 ∧
    DiskSort.ingest id encNat 1 256 (DiskSort.init Nat 8 2 1 ("t"))
      [5, 130, 200, 6, 199] = .ok scS1 ∧
    (∃ s2 outs,
      DiskSort.readAll id 64 (DiskSort.finish scS1) = .ok (s2, outs) ∧
      ((outs.map OutputT.block).flatten).Perm [5, 130, 200, 6, 199] ∧
      List.Sorted (· ≤ ·) (((outs.map OutputT.block).flatten).map id)) :=
  ⟨by decide, by decide, rfl,
    c1_global_order id encNat 1 256 8 2 1 64 ("t") [5, 130, 200, 6, 199]
      (by decide) (by decide) rfl⟩

/-- Characterization of a successful `read_bucket`: the bucket's file
existed, no short read happened, the groups come from the file's records,
and the only state change is the handle turning into a read handle. -/
theorem readOut_ok_spec {M : Nat} {b b' : Bucket T} {gs : List (List T)}
    (h : Bucket.readOut key M b = .ok (b', gs)) :
    b' = { b with handle := some Mode.read } ∧ b.fileExists = true ∧
    b.numEntries ≤ b.fileRecs.length ∧
    gs = readBucketGroups key M (b.fileRecs.take b.numEntries) := by
  unfold Bucket.readOut at h
  split at h
  · next hx =>
    split at h
    · next hn =>
      simp only [Except.ok.injEq, Prod.mk.injEq] at h
      exact ⟨h.1.symm, hx, hn, h.2.symm⟩
    · exact absurd h (by simp)
  · exact absurd h (by simp)

/-- The read loop only turns write handles into read handles: bucket count,
file names, file contents, record counts and file existence are all
preserved. -/
theorem readLoop_frame {M : Nat} :
    ∀ (idxs : List Nat) (s s' : DiskSort T) (outs : List (OutputT T)),
    DiskSort.readLoop key M idxs s = .ok (s', outs) →
    s'.buckets.length = s.buckets.length ∧
    ∀ j : Nat, (s'.buckets[j]?).map Bucket.eraseHandle =
      (s.buckets[j]?).map Bucket.eraseHandle := by
  intro idxs
  induction idxs with
  | nil =>
    intro s s' outs h
    replace h : Except.ok (s, ([] : List (OutputT T))) = Except.ok (s', outs) := h
    simp only [Except.ok.injEq, Prod.mk.injEq] at h
    obtain ⟨h1, h2⟩ := h
    subst h1
    exact ⟨rfl, fun j => rfl⟩
  | cons i rest ih =>
    intro s s' outs h
    unfold DiskSort.readLoop at h
    cases hbq : s.buckets[i]? with
    | none =>
      simp only [hbq] at h
      exact absurd h (by simp)
    | some b =>
      simp only [hbq] at h
      cases hro : Bucket.readOut key M b with
      | error e =>
        simp only [hro] at h
        exact absurd h (by simp)
      | ok pr =>
        obtain ⟨b1, gs⟩ := pr
        simp only [hro] at h
        cases hrl : DiskSort.readLoop key M rest
            { s with buckets := s.buckets.set i b1 } with
        | error e =>
          simp only [hrl] at h
          exact absurd h (by simp)
        | ok pr2 =>
          obtain ⟨s1, outs1⟩ := pr2
          simp only [hrl, Except.ok.injEq, Prod.mk.injEq] at h
          obtain ⟨hs1, houts⟩ := h
          subst hs1
          obtain ⟨hb1eq, hx, hn, hgs⟩ := readOut_ok_spec key hro
          subst hb1eq
          obtain ⟨f3, f4⟩ := ih _ _ _ hrl
          have hlt : i < s.buckets.length := by
            rcases List.getElem?_eq_some.1 hbq with ⟨hl, _⟩
            exact hl
          refine ⟨by rw [f3]; exact List.length_set .., ?_⟩
          intro j
          rw [f4 j]
          by_cases hij : i = j
          · subst hij
            show ((s.buckets.set i ({ b with handle := some Mode.read }))[i]?).map
              Bucket.eraseHandle = (s.buckets[i]?).map Bucket.eraseHandle
            rw [List.getElem?_set, if_pos rfl, if_pos hlt, hbq]
            rfl
          · show ((s.buckets.set i ({ b with handle := some Mode.read }))[j]?).map
              Bucket.eraseHandle = (s.buckets[j]?).map Bucket.eraseHandle
            rw [List.getElem?_set_ne hij]

/-- The read loop's forwarded outputs depend only on the handle-erased
bucket states: running it from any state that agrees on files, counts and
existence produces the same output units. -/
theorem readLoop_congr {M : Nat} :
    ∀ (idxs : List Nat) (s₁ s₂ s₁' : DiskSort T) (outs : List (OutputT T)),
    (∀ j : Nat, (s₂.buckets[j]?).map Bucket.eraseHandle =
      (s₁.buckets[j]?).map Bucket.eraseHandle) →
    DiskSort.readLoop key M idxs s₁ = .ok (s₁', outs) →
    ∃ s₂', DiskSort.readLoop key M idxs s₂ = .ok (s₂', outs) := by
  intro idxs
  induction idxs with
  | nil =>
    intro s₁ s₂ s₁' outs hfr h
    replace h : Except.ok (s₁, ([] : List (OutputT T))) = Except.ok (s₁', outs) := h
    simp only [Except.ok.injEq, Prod.mk.injEq] at h
    exact ⟨s₂, by rw [← h.2]; rfl⟩
  | cons i rest ih =>
    intro s₁ s₂ s₁' outs hfr h
    unfold DiskSort.readLoop at h
    cases hb₁ : s₁.buckets[i]? with
    | none =>
      simp only [hb₁] at h
      exact absurd h (by simp)
    | some b₁ =>
      simp only [hb₁] at h
      have hfri := hfr i
      rw [hb₁] at hfri
      cases hb₂ : s₂.buckets[i]? with
      | none => rw [hb₂] at hfri; simp at hfri
      | some b₂ =>
        rw [hb₂] at hfri
        simp at hfri
        have hfe0 := congrArg (fun x : Bucket T => x.fileExists) hfri
        have hfe : b₂.fileExists = b₁.fileExists := hfe0
        have hfrcs0 := congrArg (fun x : Bucket T => x.fileRecs) hfri
        have hfrcs : b₂.fileRecs = b₁.fileRecs := hfrcs0
        have hnum0 := congrArg (fun x : Bucket T => x.numEntries) hfri
        have hnum : b₂.numEntries = b₁.numEntries := hnum0
        cases hro₁ : Bucket.readOut key M b₁ with
        | error e =>
          simp only [hro₁] at h
          exact absurd h (by simp)
        | ok pr₁ =>
          obtain ⟨b₁', gs₁⟩ := pr₁
          simp only [hro₁] at h
          obtain ⟨hb1eq, hx₁, hn₁, hgs₁⟩ := readOut_ok_spec key hro₁
          have hro₂ : Bucket.readOut key M b₂ =
              .ok ({ b₂ with handle := some Mode.read }, gs₁) := by
            rw [readOut_ok_of key M b₂ (by rw [hfe]; exact hx₁)
              (by rw [hfrcs, hnum]; exact hn₁)]
            rw [hgs₁, hfrcs, hnum]
          cases hrl₁ : DiskSort.readLoop key M rest
              { s₁ with buckets := s₁.buckets.set i b₁' } with
          | error e =>
            simp only [hrl₁] at h
            exact absurd h (by simp)
          | ok pr₂ =>
            obtain ⟨s₁'', outs₁⟩ := pr₂
            simp only [hrl₁, Except.ok.injEq, Prod.mk.injEq] at h
            have hlt₁ : i < s₁.buckets.length := by
              rcases List.getElem?_eq_some.1 hb₁ with ⟨hl, _⟩
              exact hl
            have hlt₂ : i < s₂.buckets.length := by
              rcases List.getElem?_eq_some.1 hb₂ with ⟨hl, _⟩
              exact hl
            have hfr' : ∀ j : Nat,
                (({ s₂ with
                    buckets := s₂.buckets.set i ({ b₂ with handle := some Mode.read }) } :
                  DiskSort T).buckets[j]?).map Bucket.eraseHandle =
                (({ s₁ with buckets := s₁.buckets.set i b₁' } :
                  DiskSort T).buckets[j]?).map Bucket.eraseHandle := by
              intro j
              show ((s₂.buckets.set i ({ b₂ with handle := some Mode.read }))[j]?).map
                  Bucket.eraseHandle =
                ((s₁.buckets.set i b₁')[j]?).map Bucket.eraseHandle
              by_cases hij : i = j
              · subst hij
                rw [List.getElem?_set, if_pos rfl, if_pos hlt₂,
                  List.getElem?_set, if_pos rfl, if_pos hlt₁, hb1eq]
                have hgoal : Bucket.eraseHandle ({ b₂ with handle := some Mode.read }) =
                    Bucket.eraseHandle ({ b₁ with handle := some Mode.read }) := hfri
                simpa using hgoal
              · rw [List.getElem?_set_ne hij, List.getElem?_set_ne hij]
                exact hfr j
            obtain ⟨s₂', hs₂'⟩ := ih _ _ _ _ hfr' hrl₁
            refine ⟨s₂', ?_⟩
            unfold DiskSort.readLoop
            simp only [hb₂, hro₂, hs₂']
            rw [← h.2]

/-- C10: `read()` leaves every bucket's record count, file name, on-disk
contents and file existence unchanged — it only swaps the handle for a read
handle — and for a fixed finalized state a second `read()` with the same `M`
forwards exactly the same output units as the first. -/
theorem c10_read_frame (M : Nat) (s s' : DiskSort T) (outs : List (OutputT T))
    (h : DiskSort.readAll key M s = .ok (s', outs)) :
    s'.buckets.length = s.buckets.length ∧
    (∀ j : Nat, (s'.buckets[j]?).map Bucket.eraseHandle =
      (s.buckets[j]?).map Bucket.eraseHandle) ∧
    ∃ s'', DiskSort.readAll key M s' = .ok (s'', outs) := by
  replace h : DiskSort.readLoop key M (List.range s.buckets.length) s =
    .ok (s', outs) := h
  obtain ⟨f3, f4⟩ := readLoop_frame key (List.range s.buckets.length) s s' outs h
  refine ⟨f3, f4, ?_⟩
  obtain ⟨s'', hs''⟩ :=
    readLoop_congr key (List.range s.buckets.length) s s' s' outs f4 h
  refine ⟨s'', ?_⟩
  show DiskSort.readLoop key M (List.range s'.buckets.length) s' = .ok (s'', outs)
  rw [f3]
  exact hs''

/-- Witness for C10 at the concrete scenario's read. -/
theorem c10_witness :
    DiskSort.readAll id 64 scFin = .ok (scS2, scOuts) ∧
    (scS2.buckets.length = scFin.buckets.length ∧
      (∀ j : Nat, (scS2.buckets[j]?).map Bucket.eraseHandle =
        (scFin.buckets[j]?).map Bucket.eraseHandle) ∧
      ∃ s'', DiskSort.readAll id 64 scS2 = .ok (s'', scOuts)) :=
  ⟨rfl, c10_read_frame id 64 scFin scS2 scOuts rfl⟩

end Theorems

end ChiaDiskSort
